import Mathlib

/-!
Verification of the GD32W51x GPIO and EXTI peripheral drivers
(`gd32w51x_gpio.c`, `gd32w51x_exti.c`).

Registers are 32-bit memory-mapped words, modelled as `Nat` values; every
value actually stored in a register is reduced modulo `2 ^ 32` at the point
where the C code performs a 32-bit store or cast.  The C complement `~x` on
a `uint32_t` is modelled as `mask32 ^^^ x` where `mask32` is the all-ones
32-bit word.  Each driver function becomes a pure function from a register
block (a structure of register values) to an updated register block.
-/

/-- The all-ones 32-bit word; `~x` on `uint32_t` is `mask32 ^^^ x`. -/
def mask32 : Nat := 2 ^ 32 - 1

/-- Modelled from the spec: the field-clearing mask of the pin field packer.
Each pin `i` owns a `w`-bit field at bit offset `w * i` of a packed 32-bit
register ("width and offset determined by `index * field_width`"); the
concrete macros (`GPIO_MODE_MASK`, `GPIO_PUPD_MASK`, `GPIO_AFR_MASK`) live
in the device header, which is not part of the sources. -/
def fieldMask (w i : Nat) : Nat := ((2 ^ w - 1) <<< (w * i)) % 2 ^ 32

/-- Modelled from the spec: the field-setting value of the pin field packer —
the desired value shifted into pin `i`'s `w`-bit slot (the header macros
`GPIO_MODE_SET`, `GPIO_PUPD_SET`, `GPIO_AFR_SET`). -/
def fieldSet (w i v : Nat) : Nat := (v <<< (w * i)) % 2 ^ 32

/-- Modelled from the spec: `GPIO_MODE_MASK(i)` — the 2-bit mode field mask
of pin `i` in `GPIO_CTL` (mode fields are 2 bits wide). -/
def GPIO_MODE_MASK (i : Nat) : Nat := fieldMask 2 i

/-- Modelled from the spec: `GPIO_MODE_SET(i, mode)` — the mode value shifted
into pin `i`'s 2-bit field of `GPIO_CTL`. -/
def GPIO_MODE_SET (i mode : Nat) : Nat := fieldSet 2 i mode

/-- Modelled from the spec: `GPIO_PUPD_MASK(i)` — the 2-bit pull-up/down
field mask of pin `i` in `GPIO_PUD`. -/
def GPIO_PUPD_MASK (i : Nat) : Nat := fieldMask 2 i

/-- Modelled from the spec: `GPIO_PUPD_SET(i, pupd)` — the pull-up/down value
shifted into pin `i`'s 2-bit field of `GPIO_PUD`. -/
def GPIO_PUPD_SET (i pupd : Nat) : Nat := fieldSet 2 i pupd

/-- Modelled from the spec: `GPIO_AFR_MASK(i)` — the 4-bit alternate-function
field mask of slot `i` in `GPIO_AFSEL0`/`GPIO_AFSEL1` (AF fields are 4 bits
wide). -/
def GPIO_AFR_MASK (i : Nat) : Nat := fieldMask 4 i

/-- Modelled from the spec: `GPIO_AFR_SET(i, af)` — the alternate-function
number shifted into slot `i`'s 4-bit field. -/
def GPIO_AFR_SET (i af : Nat) : Nat := fieldSet 4 i af

/-- Modelled from the spec: the `FlagStatus` / `bit_status` enumerations are
two-valued set/clear statuses; `RESET` is the zero value of the underlying
C integer type. -/
def RESET : Nat := 0

/-- Modelled from the spec: the nonzero `SET` value of the two-valued
status enumerations. -/
def SET : Nat := 1

/-- The register block of one GPIO port (`GPIOx`), per the spec's design
note: an explicit structure standing for the port's memory-mapped
registers, passed to each operation in place of the `gpio_periph` base
address. -/
@[ext]
structure GPIOPort where
  ctl : Nat
  omode : Nat
  ospd : Nat
  pud : Nat
  istat : Nat
  octl : Nat
  bop : Nat
  bc : Nat
  afsel0 : Nat
  afsel1 : Nat
  tg : Nat
  scfg : Nat
deriving Repr, DecidableEq

/-- `gpio_mode_set`: reads `GPIO_CTL` and `GPIO_PUD`, then for each pin
index `0 ≤ i < 16` whose bit is set in `pin`, clears and re-sets that pin's
2-bit mode and pull-up/down fields, and finally writes both registers back
(one loop updating the `(ctl, pupd)` pair, as in the source). -/
def gpio_mode_set (s : GPIOPort) (mode pull_up_down pin : Nat) : GPIOPort :=
  let cp := (List.range 16).foldl (fun (cp : Nat × Nat) i =>
    if (1 <<< i) &&& pin ≠ 0 then
      ((cp.1 &&& (mask32 ^^^ GPIO_MODE_MASK i)) ||| GPIO_MODE_SET i mode,
       (cp.2 &&& (mask32 ^^^ GPIO_PUPD_MASK i)) ||| GPIO_PUPD_SET i pull_up_down)
    else cp) (s.ctl, s.pud)
  { s with ctl := cp.1, pud := cp.2 }

/-- `gpio_af_set`: reads `GPIO_AFSEL0` and `GPIO_AFSEL1`; pins `0..7` get
their 4-bit field `i` updated in `AFSEL0`, pins `8..15` get field `i - 8`
updated in `AFSEL1`; both registers are written back. -/
def gpio_af_set (s : GPIOPort) (alt_func_num pin : Nat) : GPIOPort :=
  let afrl := (List.range 8).foldl (fun c i =>
    if (1 <<< i) &&& pin ≠ 0 then
      (c &&& (mask32 ^^^ GPIO_AFR_MASK i)) ||| GPIO_AFR_SET i alt_func_num
    else c) s.afsel0
  let afrh := (List.range' 8 8).foldl (fun c i =>
    if (1 <<< i) &&& pin ≠ 0 then
      (c &&& (mask32 ^^^ GPIO_AFR_MASK (i - 8))) ||| GPIO_AFR_SET (i - 8) alt_func_num
    else c) s.afsel1
  { s with afsel0 := afrl, afsel1 := afrh }

/-- `gpio_bit_set`: stores the pin mask into the bit-operate register
`GPIO_BOP`. -/
def gpio_bit_set (s : GPIOPort) (pin : Nat) : GPIOPort :=
  { s with bop := pin % 2 ^ 32 }

/-- `gpio_bit_reset`: stores the pin mask into the bit-clear register
`GPIO_BC`. -/
def gpio_bit_reset (s : GPIOPort) (pin : Nat) : GPIOPort :=
  { s with bc := pin % 2 ^ 32 }

/-- `gpio_bit_write`: `if(RESET != bit_value)` write the pin mask to
`GPIO_BOP`, else write it to `GPIO_BC`. -/
def gpio_bit_write (s : GPIOPort) (pin : Nat) (bit_value : Nat) : GPIOPort :=
  if RESET ≠ bit_value then
    { s with bop := pin % 2 ^ 32 }
  else
    { s with bc := pin % 2 ^ 32 }

/-- One access on the `GPIO_LOCK` register: a 32-bit store of a value, or a
load. -/
inductive LockAccess where
  | store (v : Nat) : LockAccess
  | load : LockAccess
deriving Repr, DecidableEq

/-- The `GPIO_LOCK` register together with the sequence of bus accesses
performed on it, in order. -/
structure LockBus where
  lockReg : Nat
  accesses : List LockAccess
deriving Repr, DecidableEq

/-- A 32-bit store to `GPIO_LOCK`, recorded on the bus. -/
def lockStore (v : Nat) (b : LockBus) : LockBus :=
  { lockReg := v % 2 ^ 32, accesses := b.accesses ++ [LockAccess.store (v % 2 ^ 32)] }

/-- A load from `GPIO_LOCK`, recorded on the bus. -/
def lockLoad (b : LockBus) : Nat × LockBus :=
  (b.lockReg, { b with accesses := b.accesses ++ [LockAccess.load] })

/-- `gpio_pin_lock`: `lock = 0x00010000; lock |= pin;` then the mandated
key sequence — write `lock`, write `pin`, write `lock`, read, read. -/
def gpio_pin_lock (pin : Nat) (b : LockBus) : LockBus :=
  let lockv := (0x00010000 : Nat) ||| pin
  let b := lockStore lockv b
  let b := lockStore pin b
  let b := lockStore lockv b
  let (_, b) := lockLoad b
  let (_, b) := lockLoad b
  b

/-- Modelled from the spec: the `GPIOA` port base identifier (the header
defining the port base addresses is not part of the sources; the three
recognized port identifiers are three distinct constants). -/
def GPIOA : Nat := 0x48000000

/-- Modelled from the spec: the `GPIOB` port base identifier. -/
def GPIOB : Nat := 0x48000400

/-- Modelled from the spec: the `GPIOC` port base identifier. -/
def GPIOC : Nat := 0x48000800

/-- Modelled from the spec: the `RCU_GPIOARST` reset-line selector (an
opaque identifier passed to the clock/reset collaborator). -/
def RCU_GPIOARST : Nat := 0

/-- Modelled from the spec: the `RCU_GPIOBRST` reset-line selector. -/
def RCU_GPIOBRST : Nat := 1

/-- Modelled from the spec: the `RCU_GPIOCRST` reset-line selector. -/
def RCU_GPIOCRST : Nat := 2

/-- A register access performed through the clock/reset collaborator
(`rcu_periph_reset_enable` / `rcu_periph_reset_disable`). -/
inductive RcuAccess where
  | resetEnable (rst : Nat) : RcuAccess
  | resetDisable (rst : Nat) : RcuAccess
deriving Repr, DecidableEq

/-- `gpio_deinit`: a switch on the port identifier; each recognized port
pulses its reset line (enable then disable); the `default` arm does
nothing.  The result is the list of register accesses performed. -/
def gpio_deinit (gpio_periph : Nat) : List RcuAccess :=
  if gpio_periph = GPIOA then
    [RcuAccess.resetEnable RCU_GPIOARST, RcuAccess.resetDisable RCU_GPIOARST]
  else if gpio_periph = GPIOB then
    [RcuAccess.resetEnable RCU_GPIOBRST, RcuAccess.resetDisable RCU_GPIOBRST]
  else if gpio_periph = GPIOC then
    [RcuAccess.resetEnable RCU_GPIOCRST, RcuAccess.resetDisable RCU_GPIOCRST]
  else
    []

/-- The EXTI controller's register block. -/
@[ext]
structure EXTI where
  inten : Nat
  even : Nat
  rten : Nat
  ften : Nat
  swiev : Nat
  seccfg : Nat
  privcfg : Nat
  pd : Nat
deriving Repr, DecidableEq

/-- `exti_interrupt_enable`: `EXTI_INTEN |= (uint32_t)linex`. -/
def exti_interrupt_enable (linex : Nat) (s : EXTI) : EXTI :=
  { s with inten := s.inten ||| (linex % 2 ^ 32) }

/-- `exti_interrupt_disable`: `EXTI_INTEN &= ~(uint32_t)linex`. -/
def exti_interrupt_disable (linex : Nat) (s : EXTI) : EXTI :=
  { s with inten := s.inten &&& (mask32 ^^^ (linex % 2 ^ 32)) }

/-- Modelled from the spec: the hardware semantics of a store to the
pending register `EXTI_PD`, which is clear-by-write-1 — the bits set in the
stored value are cleared and all other bits are left unchanged.  (The
register's behaviour is silicon-defined; the sources only perform the
store.) -/
def extiPdStore (pd v : Nat) : Nat := pd &&& (mask32 ^^^ (v % 2 ^ 32))

/-- `exti_flag_get`: `RESET != (EXTI_PD & (uint32_t)linex)` selects `SET`,
otherwise `RESET`. -/
def exti_flag_get (linex : Nat) (s : EXTI) : Nat :=
  if RESET ≠ s.pd &&& (linex % 2 ^ 32) then SET else RESET

/-- `exti_flag_clear`: `EXTI_PD = (uint32_t)linex` — a clear-by-write-1
store of the line mask. -/
def exti_flag_clear (linex : Nat) (s : EXTI) : EXTI :=
  { s with pd := extiPdStore s.pd linex }

/-- `exti_interrupt_flag_get`: same body as `exti_flag_get`. -/
def exti_interrupt_flag_get (linex : Nat) (s : EXTI) : Nat :=
  if RESET ≠ s.pd &&& (linex % 2 ^ 32) then SET else RESET

/-- `exti_interrupt_flag_clear`: same body as `exti_flag_clear`. -/
def exti_interrupt_flag_clear (linex : Nat) (s : EXTI) : EXTI :=
  { s with pd := extiPdStore s.pd linex }

/-!
Generic theory of the pin field packer: the read-modify-write loop step
used by `gpio_mode_set` and `gpio_af_set`, abstracted over the selection
predicate `sel`, the field width `w` and the desired value `v`.
-/

/-- One iteration of the pin field packer: when slot `i` is selected, clear
its `w`-bit field and OR in the desired value `v` at that slot. -/
def rmwStep (sel : Nat → Bool) (w v : Nat) (c i : Nat) : Nat :=
  if sel i then (c &&& (mask32 ^^^ fieldMask w i)) ||| fieldSet w i v else c

/-- The packer loop: fold `rmwStep` over a list of slot indices. -/
def rmwLoop (sel : Nat → Bool) (w v : Nat) (l : List Nat) (c : Nat) : Nat :=
  l.foldl (rmwStep sel w v) c

theorem rmwLoop_nil (sel : Nat → Bool) (w v c : Nat) :
    rmwLoop sel w v [] c = c := rfl

theorem rmwLoop_cons (sel : Nat → Bool) (w v : Nat) (x : Nat) (l : List Nat) (c : Nat) :
    rmwLoop sel w v (x :: l) c = rmwLoop sel w v l (rmwStep sel w v c x) := rfl

/-- The `w`-bit field of slot `i` of a packed register value. -/
def fieldGet (w i x : Nat) : Nat := (x >>> (w * i)) % 2 ^ w

theorem fieldGet_lt (w i x : Nat) : fieldGet w i x < 2 ^ w :=
  Nat.mod_lt _ (Nat.two_pow_pos w)

theorem testBit_fieldGet (w i x r : Nat) (hr : r < w) :
    Nat.testBit (fieldGet w i x) r = Nat.testBit x (w * i + r) := by
  simp [fieldGet, Nat.testBit_mod_two_pow, Nat.testBit_shiftRight, hr]

theorem fieldGet_eq_of_testBit (w i x y : Nat) (hy : y < 2 ^ w)
    (h : ∀ r, r < w → Nat.testBit x (w * i + r) = Nat.testBit y r) :
    fieldGet w i x = y := by
  apply Nat.eq_of_testBit_eq
  intro r
  by_cases hr : r < w
  · rw [testBit_fieldGet w i x r hr, h r hr]
  · have hwr : 2 ^ w ≤ 2 ^ r := Nat.pow_le_pow_right (by norm_num) (Nat.le_of_not_lt hr)
    rw [Nat.testBit_lt_two_pow (Nat.lt_of_lt_of_le (fieldGet_lt w i x) hwr),
      Nat.testBit_lt_two_pow (Nat.lt_of_lt_of_le hy hwr)]

/-- Two slots whose `w`-bit fields share a bit position are the same slot. -/
theorem field_index_eq {w x i r : Nat} (hr : r < w)
    (h1 : w * x ≤ w * i + r) (h2 : w * i + r < w * x + w) : x = i := by
  rcases Nat.lt_trichotomy x i with h | h | h
  · exfalso
    have hx : w * (x + 1) ≤ w * i := Nat.mul_le_mul_left w h
    rw [Nat.mul_add, Nat.mul_one] at hx
    exact absurd (Nat.lt_of_lt_of_le h2 (Nat.le_trans hx (Nat.le_add_right _ r)))
      (Nat.lt_irrefl _)
  · exact h
  · exfalso
    have hx : w * (i + 1) ≤ w * x := Nat.mul_le_mul_left w h
    rw [Nat.mul_add, Nat.mul_one] at hx
    have : w * i + r < w * i + w := Nat.add_lt_add_left hr _
    exact absurd (Nat.lt_of_lt_of_le this (Nat.le_trans hx h1)) (Nat.lt_irrefl _)

theorem testBit_mask32 {k : Nat} (hk : k < 32) : Nat.testBit mask32 k = true := by
  rw [mask32, Nat.testBit_two_pow_sub_one]
  simp [hk]

theorem testBit_fieldMask (w x k : Nat) (hk : k < 32) :
    Nat.testBit (fieldMask w x) k =
      (decide (w * x ≤ k) && decide (k - w * x < w)) := by
  rw [fieldMask, Nat.testBit_mod_two_pow, Nat.testBit_shiftLeft,
    Nat.testBit_two_pow_sub_one]
  simp [hk, ge_iff_le]

theorem testBit_fieldSet (w x v k : Nat) (hk : k < 32) :
    Nat.testBit (fieldSet w x v) k =
      (decide (w * x ≤ k) && Nat.testBit v (k - w * x)) := by
  rw [fieldSet, Nat.testBit_mod_two_pow, Nat.testBit_shiftLeft]
  simp [hk, ge_iff_le]

/-- Per-bit behaviour of one packer step at a bit inside slot `i`:
the step fired at slot `x` writes `v`'s bit when `x = i`, and otherwise
leaves the bit alone. -/
theorem rmwStep_testBit (sel : Nat → Bool) (w v : Nat) (hv : v < 2 ^ w)
    (c x i r : Nat) (hr : r < w) (hk : w * i + r < 32) :
    Nat.testBit (rmwStep sel w v c x) (w * i + r) =
      if x = i ∧ sel x = true then Nat.testBit v r
      else Nat.testBit c (w * i + r) := by
  by_cases hs : sel x = true
  · rw [rmwStep, if_pos hs]
    by_cases hxi : x = i
    · subst hxi
      rw [if_pos ⟨rfl, hs⟩]
      have h1 : w * x ≤ w * x + r := Nat.le_add_right _ _
      have h2 : w * x + r - w * x = r := by omega
      simp [Nat.testBit_or, Nat.testBit_and, Nat.testBit_xor,
        testBit_mask32 hk, testBit_fieldMask w x _ hk, testBit_fieldSet w x v _ hk,
        h1, h2, hr]
    · rw [if_neg (fun h => hxi h.1)]
      by_cases hle : w * x ≤ w * i + r
      · have hfar : ¬(w * i + r - w * x < w) := fun hlt =>
          hxi (field_index_eq hr hle (by omega))
        have hvbit : Nat.testBit v (w * i + r - w * x) = false :=
          Nat.testBit_lt_two_pow (Nat.lt_of_lt_of_le hv
            (Nat.pow_le_pow_right (by norm_num) (Nat.le_of_not_lt hfar)))
        simp [Nat.testBit_or, Nat.testBit_and, Nat.testBit_xor,
          testBit_mask32 hk, testBit_fieldMask w x _ hk, testBit_fieldSet w x v _ hk,
          hle, hfar, hvbit]
      · simp [Nat.testBit_or, Nat.testBit_and, Nat.testBit_xor,
          testBit_mask32 hk, testBit_fieldMask w x _ hk, testBit_fieldSet w x v _ hk,
          hle]
  · rw [rmwStep, if_neg (by simpa using hs)]
    rw [if_neg (fun h => hs h.2)]

/-- Per-bit behaviour of the packer loop at a bit inside slot `i`: the bit
equals `v`'s bit when slot `i` is processed and selected, and the input bit
otherwise. -/
theorem rmwLoop_testBit (sel : Nat → Bool) (w v : Nat) (hv : v < 2 ^ w)
    (l : List Nat) (c i r : Nat) (hr : r < w) (hk : w * i + r < 32) :
    Nat.testBit (rmwLoop sel w v l c) (w * i + r) =
      if i ∈ l ∧ sel i = true then Nat.testBit v r
      else Nat.testBit c (w * i + r) := by
  induction l generalizing c with
  | nil => simp [rmwLoop_nil]
  | cons x l ih =>
    rw [rmwLoop_cons, ih]
    by_cases hmem : i ∈ l ∧ sel i = true
    · rw [if_pos hmem, if_pos ⟨List.mem_cons_of_mem x hmem.1, hmem.2⟩]
    · rw [if_neg hmem, rmwStep_testBit sel w v hv c x i r hr hk]
      by_cases hx : x = i ∧ sel x = true
      · rw [if_pos hx, if_pos ⟨by rw [← hx.1]; exact List.mem_cons_self x l, by rw [← hx.1]; exact hx.2⟩]
      · rw [if_neg hx, if_neg ?_]
        rintro ⟨hm, hsel⟩
        rcases List.mem_cons.mp hm with he | hl
        · exact hx ⟨he.symm, he ▸ hsel⟩
        · exact hmem ⟨hl, hsel⟩

/-- The `w`-bit field of slot `i` after the packer loop: the desired value
`v` when slot `i` was processed and selected, the input field otherwise. -/
theorem rmwLoop_fieldGet (sel : Nat → Bool) (w v : Nat) (hv : v < 2 ^ w)
    (l : List Nat) (c i : Nat) (hfit : w * i + w ≤ 32) :
    fieldGet w i (rmwLoop sel w v l c) =
      if i ∈ l ∧ sel i = true then v else fieldGet w i c := by
  by_cases hc : i ∈ l ∧ sel i = true
  · rw [if_pos hc]
    apply fieldGet_eq_of_testBit w i _ v hv
    intro r hr
    rw [rmwLoop_testBit sel w v hv l c i r hr (by omega), if_pos hc]
  · rw [if_neg hc]
    apply fieldGet_eq_of_testBit w i _ _ (fieldGet_lt w i c)
    intro r hr
    rw [rmwLoop_testBit sel w v hv l c i r hr (by omega), if_neg hc,
      testBit_fieldGet w i c r hr]

/-- Each packer step acts on every fixed bit as a boolean affine map
`x ↦ (x && a) || b`. -/
theorem rmwStep_shape_bit (sel : Nat → Bool) (w v x k : Nat) :
    ∃ a b : Bool, ∀ c,
      Nat.testBit (rmwStep sel w v c x) k = ((Nat.testBit c k && a) || b) := by
  by_cases hs : sel x = true
  · refine ⟨Nat.testBit (mask32 ^^^ fieldMask w x) k, Nat.testBit (fieldSet w x v) k,
      fun c => ?_⟩
    rw [rmwStep, if_pos hs, Nat.testBit_or, Nat.testBit_and]
  · exact ⟨true, false, fun c => by rw [rmwStep, if_neg (by simpa using hs)]; simp⟩

/-- The whole packer loop acts on every fixed bit as a boolean affine map. -/
theorem rmwLoop_shape_bit (sel : Nat → Bool) (w v : Nat) (l : List Nat) (k : Nat) :
    ∃ a b : Bool, ∀ c,
      Nat.testBit (rmwLoop sel w v l c) k = ((Nat.testBit c k && a) || b) := by
  induction l with
  | nil => exact ⟨true, false, fun c => by simp [rmwLoop_nil]⟩
  | cons x l ih =>
    obtain ⟨A, B, hAB⟩ := ih
    obtain ⟨a, b, hab⟩ := rmwStep_shape_bit sel w v x k
    refine ⟨a && A, (b && A) || B, fun c => ?_⟩
    rw [rmwLoop_cons, hAB, hab]
    cases Nat.testBit c k <;> cases a <;> cases b <;> cases A <;> cases B <;> rfl

/-- The packer loop is idempotent: running it a second time with the same
arguments changes nothing. -/
theorem rmwLoop_idem (sel : Nat → Bool) (w v : Nat) (l : List Nat) (c : Nat) :
    rmwLoop sel w v l (rmwLoop sel w v l c) = rmwLoop sel w v l c := by
  apply Nat.eq_of_testBit_eq
  intro k
  obtain ⟨a, b, h⟩ := rmwLoop_shape_bit sel w v l k
  rw [h, h]
  cases Nat.testBit c k <;> cases a <;> cases b <;> rfl

/-- A packer loop whose selection predicate never fires is the identity. -/
theorem rmwLoop_id (sel : Nat → Bool) (w v : Nat) (h : ∀ i, sel i = false) :
    ∀ (l : List Nat) (c : Nat), rmwLoop sel w v l c = c := by
  intro l
  induction l with
  | nil => intro c; rfl
  | cons x l ih =>
    intro c
    rw [rmwLoop_cons, rmwStep, if_neg (by simp [h x]), ih]

/-!
Bridges from the driver functions to the generic packer loop.
-/

theorem foldl_fn_congr {f g : Nat → Nat → Nat} (h : ∀ c i, f c i = g c i) :
    ∀ (l : List Nat) (c : Nat), l.foldl f c = l.foldl g c := by
  intro l
  induction l with
  | nil => intro c; rfl
  | cons x l ih =>
    intro c
    rw [List.foldl_cons, List.foldl_cons, h]
    exact ih _

theorem foldl_pair {α β : Type} (F : α → Nat → α) (G : β → Nat → β)
    (f : α × β → Nat → α × β) (hf : ∀ p j, f p j = (F p.1 j, G p.2 j)) :
    ∀ (l : List Nat) (a : α) (b : β), l.foldl f (a, b) = (l.foldl F a, l.foldl G b) := by
  intro l
  induction l with
  | nil => intro a b; rfl
  | cons x l ih =>
    intro a b
    rw [List.foldl_cons, List.foldl_cons, List.foldl_cons, hf]
    exact ih _ _

/-- The selection predicate of the GPIO packer loops: `(1U << i) & pin`. -/
def pinSel (pin : Nat) : Nat → Bool := fun i => decide ((1 <<< i) &&& pin ≠ 0)

theorem gpio_mode_set_ctl (s : GPIOPort) (mode pupd pin : Nat) :
    (gpio_mode_set s mode pupd pin).ctl =
      rmwLoop (pinSel pin) 2 mode (List.range 16) s.ctl := by
  show ((List.range 16).foldl _ (s.ctl, s.pud)).1 = _
  rw [foldl_pair (rmwStep (pinSel pin) 2 mode) (rmwStep (pinSel pin) 2 pupd)]
  · rfl
  · intro p j
    by_cases h : (1 <<< j) &&& pin ≠ 0 <;>
      simp [rmwStep, pinSel, h, GPIO_MODE_MASK, GPIO_MODE_SET, GPIO_PUPD_MASK,
        GPIO_PUPD_SET]

theorem gpio_mode_set_pud (s : GPIOPort) (mode pupd pin : Nat) :
    (gpio_mode_set s mode pupd pin).pud =
      rmwLoop (pinSel pin) 2 pupd (List.range 16) s.pud := by
  show ((List.range 16).foldl _ (s.ctl, s.pud)).2 = _
  rw [foldl_pair (rmwStep (pinSel pin) 2 mode) (rmwStep (pinSel pin) 2 pupd)]
  · rfl
  · intro p j
    by_cases h : (1 <<< j) &&& pin ≠ 0 <;>
      simp [rmwStep, pinSel, h, GPIO_MODE_MASK, GPIO_MODE_SET, GPIO_PUPD_MASK,
        GPIO_PUPD_SET]

theorem gpio_af_set_afsel0 (s : GPIOPort) (af pin : Nat) :
    (gpio_af_set s af pin).afsel0 =
      rmwLoop (pinSel pin) 4 af (List.range 8) s.afsel0 := by
  show (List.range 8).foldl (fun c i =>
    if (1 <<< i) &&& pin ≠ 0 then
      (c &&& (mask32 ^^^ GPIO_AFR_MASK i)) ||| GPIO_AFR_SET i af
    else c) s.afsel0 = _
  apply foldl_fn_congr
  intro c j
  by_cases h : (1 <<< j) &&& pin ≠ 0 <;>
    simp [rmwStep, pinSel, h, GPIO_AFR_MASK, GPIO_AFR_SET]

/-- The selection predicate of the high-byte AF loop after re-indexing
slot `j` to pin `8 + j`. -/
def pinSelHigh (pin : Nat) : Nat → Bool := fun j => decide ((1 <<< (8 + j)) &&& pin ≠ 0)

theorem gpio_af_set_afsel1 (s : GPIOPort) (af pin : Nat) :
    (gpio_af_set s af pin).afsel1 =
      rmwLoop (pinSelHigh pin) 4 af (List.range 8) s.afsel1 := by
  show (List.range' 8 8).foldl (fun c i =>
    if (1 <<< i) &&& pin ≠ 0 then
      (c &&& (mask32 ^^^ GPIO_AFR_MASK (i - 8))) ||| GPIO_AFR_SET (i - 8) af
    else c) s.afsel1 = _
  rw [List.range'_eq_map_range, List.foldl_map]
  apply foldl_fn_congr
  intro c j
  by_cases h : (1 <<< (8 + j)) &&& pin ≠ 0 <;>
    simp [rmwStep, pinSelHigh, h, GPIO_AFR_MASK, GPIO_AFR_SET,
      Nat.add_sub_cancel_left]

/-!
Sanity checks of the embedding on concrete inputs.
-/

example :
    (gpio_mode_set ⟨0xFFFFFFFF, 0, 0, 0, 0, 0, 0, 0, 0, 0, 0, 0⟩ 2 0 3).ctl =
      0xFFFFFFFA := by decide

example :
    (gpio_af_set ⟨0, 0, 0, 0, 0, 0, 0, 0, 0, 0, 0, 0⟩ 5 0x8001).afsel0 = 5 ∧
    (gpio_af_set ⟨0, 0, 0, 0, 0, 0, 0, 0, 0, 0, 0, 0⟩ 5 0x8001).afsel1 =
      0x50000000 := by decide

/-- A sample GPIO port register block used to instantiate theorems. -/
def samplePort : GPIOPort :=
  ⟨0xFFFFFFFF, 0, 0, 0x55555555, 0, 0, 0, 0, 0x12345678, 0x9ABCDEF0, 0, 0⟩

/-- A sample EXTI register block used to instantiate theorems. -/
def sampleEXTI : EXTI := ⟨0, 0, 0, 0, 0, 0, 0, 0⟩

/-!
The claims.
-/

/-- C1: for every initial register state, port, enumerated mode and
pull-up/down value and pin selector, `gpio_mode_set` sets the 2-bit field
at position `2 * i` of `GPIO_CTL` (resp. `GPIO_PUD`) to `mode`
(resp. `pull_up_down`) for every selected pin `i < 16`, and leaves the
2-bit field of every unselected pin bit-for-bit unchanged. -/
theorem gpio_mode_set_fields (s : GPIOPort) (mode pupd pin i : Nat)
    (hm : mode < 4) (hp : pupd < 4) (hi : i < 16) :
    (((1 <<< i) &&& pin ≠ 0) →
      fieldGet 2 i (gpio_mode_set s mode pupd pin).ctl = mode ∧
      fieldGet 2 i (gpio_mode_set s mode pupd pin).pud = pupd) ∧
    (((1 <<< i) &&& pin = 0) →
      fieldGet 2 i (gpio_mode_set s mode pupd pin).ctl = fieldGet 2 i s.ctl ∧
      fieldGet 2 i (gpio_mode_set s mode pupd pin).pud = fieldGet 2 i s.pud) := by
  have e4 : (2 : Nat) ^ 2 = 4 := by norm_num
  have hm2 : mode < 2 ^ 2 := by omega
  have hp2 : pupd < 2 ^ 2 := by omega
  have hfit : 2 * i + 2 ≤ 32 := by omega
  rw [gpio_mode_set_ctl, gpio_mode_set_pud]
  constructor
  · intro hsel
    have hc : i ∈ List.range 16 ∧ pinSel pin i = true :=
      ⟨List.mem_range.mpr hi, decide_eq_true hsel⟩
    rw [rmwLoop_fieldGet (pinSel pin) 2 mode hm2 (List.range 16) s.ctl i hfit,
      rmwLoop_fieldGet (pinSel pin) 2 pupd hp2 (List.range 16) s.pud i hfit,
      if_pos hc, if_pos hc]
    exact ⟨rfl, rfl⟩
  · intro hsel
    have hc : ¬(i ∈ List.range 16 ∧ pinSel pin i = true) := by
      rintro ⟨-, hs⟩
      exact (of_decide_eq_true hs) hsel
    rw [rmwLoop_fieldGet (pinSel pin) 2 mode hm2 (List.range 16) s.ctl i hfit,
      rmwLoop_fieldGet (pinSel pin) 2 pupd hp2 (List.range 16) s.pud i hfit,
      if_neg hc, if_neg hc]
    exact ⟨rfl, rfl⟩

/-- Witness for C1 at a concrete input: `mode = 2`, `pull_up_down = 1`,
`pin = 0x5` (pins 0 and 2), observed at pin 2. -/
theorem gpio_mode_set_fields_witness :
    (2 : Nat) < 4 ∧ (1 : Nat) < 4 ∧ (2 : Nat) < 16 ∧
    ((((1 <<< 2) &&& 5 ≠ 0) →
      fieldGet 2 2 (gpio_mode_set samplePort 2 1 5).ctl = 2 ∧
      fieldGet 2 2 (gpio_mode_set samplePort 2 1 5).pud = 1) ∧
     (((1 <<< 2) &&& 5 = 0) →
      fieldGet 2 2 (gpio_mode_set samplePort 2 1 5).ctl = fieldGet 2 2 samplePort.ctl ∧
      fieldGet 2 2 (gpio_mode_set samplePort 2 1 5).pud = fieldGet 2 2 samplePort.pud)) :=
  ⟨by decide, by decide, by decide,
    gpio_mode_set_fields samplePort 2 1 5 2 (by decide) (by decide) (by decide)⟩

/-- C2: `gpio_af_set` sets the 4-bit field at `4 * i` of `GPIO_AFSEL0` for
each selected pin `i < 8`, and the 4-bit field at `4 * (i - 8)` of
`GPIO_AFSEL1` for each selected pin `8 ≤ i < 16`, to the alternate-function
number, leaving every unselected pin's field bit-for-bit unchanged. -/
theorem gpio_af_set_fields (s : GPIOPort) (af pin i : Nat) (haf : af < 16) :
    (i < 8 →
      (((1 <<< i) &&& pin ≠ 0) →
        fieldGet 4 i (gpio_af_set s af pin).afsel0 = af) ∧
      (((1 <<< i) &&& pin = 0) →
        fieldGet 4 i (gpio_af_set s af pin).afsel0 = fieldGet 4 i s.afsel0)) ∧
    (8 ≤ i → i < 16 →
      (((1 <<< i) &&& pin ≠ 0) →
        fieldGet 4 (i - 8) (gpio_af_set s af pin).afsel1 = af) ∧
      (((1 <<< i) &&& pin = 0) →
        fieldGet 4 (i - 8) (gpio_af_set s af pin).afsel1 =
          fieldGet 4 (i - 8) s.afsel1)) := by
  have e16 : (2 : Nat) ^ 4 = 16 := by norm_num
  have haf2 : af < 2 ^ 4 := by omega
  rw [gpio_af_set_afsel0, gpio_af_set_afsel1]
  constructor
  · intro h8
    have hfit : 4 * i + 4 ≤ 32 := by omega
    constructor
    · intro hsel
      rw [rmwLoop_fieldGet (pinSel pin) 4 af haf2 (List.range 8) s.afsel0 i hfit,
        if_pos ⟨List.mem_range.mpr h8, decide_eq_true hsel⟩]
    · intro hsel
      have hc : ¬(i ∈ List.range 8 ∧ pinSel pin i = true) := by
        rintro ⟨-, hs⟩
        exact (of_decide_eq_true hs) hsel
      rw [rmwLoop_fieldGet (pinSel pin) 4 af haf2 (List.range 8) s.afsel0 i hfit,
        if_neg hc]
  · intro h8 h16
    have hfit : 4 * (i - 8) + 4 ≤ 32 := by omega
    have hidx : 8 + (i - 8) = i := by omega
    constructor
    · intro hsel
      have hb : pinSelHigh pin (i - 8) = true := by
        unfold pinSelHigh
        rw [hidx]
        exact decide_eq_true hsel
      rw [rmwLoop_fieldGet (pinSelHigh pin) 4 af haf2 (List.range 8) s.afsel1
        (i - 8) hfit, if_pos ⟨List.mem_range.mpr (by omega), hb⟩]
    · intro hsel
      have hb : ¬(i - 8 ∈ List.range 8 ∧ pinSelHigh pin (i - 8) = true) := by
        rintro ⟨-, hs⟩
        have hs2 : (1 <<< (8 + (i - 8))) &&& pin ≠ 0 := of_decide_eq_true hs
        rw [hidx] at hs2
        exact hs2 hsel
      rw [rmwLoop_fieldGet (pinSelHigh pin) 4 af haf2 (List.range 8) s.afsel1
        (i - 8) hfit, if_neg hb]

/-- Witness for C2 at a concrete input: `af = 7`, `pin = 0x8001` (pins 0 and
15), observed at pin 15. -/
theorem gpio_af_set_fields_witness :
    (7 : Nat) < 16 ∧
    ((15 < 8 →
      (((1 <<< 15) &&& 0x8001 ≠ 0) →
        fieldGet 4 15 (gpio_af_set samplePort 7 0x8001).afsel0 = 7) ∧
      (((1 <<< 15) &&& 0x8001 = 0) →
        fieldGet 4 15 (gpio_af_set samplePort 7 0x8001).afsel0 =
          fieldGet 4 15 samplePort.afsel0)) ∧
     (8 ≤ 15 → 15 < 16 →
      (((1 <<< 15) &&& 0x8001 ≠ 0) →
        fieldGet 4 (15 - 8) (gpio_af_set samplePort 7 0x8001).afsel1 = 7) ∧
      (((1 <<< 15) &&& 0x8001 = 0) →
        fieldGet 4 (15 - 8) (gpio_af_set samplePort 7 0x8001).afsel1 =
          fieldGet 4 (15 - 8) samplePort.afsel1))) :=
  ⟨by decide, gpio_af_set_fields samplePort 7 0x8001 15 (by decide)⟩

/-- C3: clearing an EXTI line's pending flag and immediately reading it
back reports `RESET`, for every line mask and every initial EXTI state. -/
theorem exti_flag_clear_then_get (linex : Nat) (s : EXTI) :
    exti_flag_get linex (exti_flag_clear linex s) = RESET := by
  have hz : extiPdStore s.pd linex &&& (linex % 2 ^ 32) = 0 := by
    apply Nat.eq_of_testBit_eq
    intro k
    rw [Nat.zero_testBit, extiPdStore, Nat.testBit_and, Nat.testBit_and,
      Nat.testBit_xor]
    by_cases hk : k < 32
    · rw [testBit_mask32 hk]
      cases h : Nat.testBit (linex % 2 ^ 32) k <;> simp [h]
    · have hlv : Nat.testBit (linex % 2 ^ 32) k = false := by
        rw [Nat.testBit_mod_two_pow]
        simp [hk]
      rw [hlv, Bool.and_false]
  show (if RESET ≠ extiPdStore s.pd linex &&& (linex % 2 ^ 32) then SET else RESET) =
    RESET
  rw [hz]
  simp [RESET]

/-- C4 counterexample: with `EXTI_INTEN = 1` initially and line mask `1`,
enable-then-disable does not restore the line's bit (it was set, and ends
up clear). -/
theorem exti_enable_disable_no_roundtrip :
    (exti_interrupt_disable 1 (exti_interrupt_enable 1
        ⟨1, 0, 0, 0, 0, 0, 0, 0⟩)).inten &&& 1 ≠
      (⟨1, 0, 0, 0, 0, 0, 0, 0⟩ : EXTI).inten &&& 1 := by decide

/-- C4 (amended): enable-then-disable on `EXTI_INTEN` restores the exact
original register state whenever the selected line's bit was clear before
the enable (in general the sequence forces the bit clear rather than
restoring it). -/
theorem exti_enable_then_disable (linex : Nat) (s : EXTI)
    (h32 : s.inten < 2 ^ 32) (h : s.inten &&& linex = 0) :
    exti_interrupt_disable linex (exti_interrupt_enable linex s) = s := by
  refine EXTI.ext ?_ rfl rfl rfl rfl rfl rfl rfl
  show (s.inten ||| linex % 2 ^ 32) &&& (mask32 ^^^ linex % 2 ^ 32) = s.inten
  apply Nat.eq_of_testBit_eq
  intro k
  have hand : (Nat.testBit s.inten k && Nat.testBit linex k) = false := by
    rw [← Nat.testBit_and, h, Nat.zero_testBit]
  rw [Nat.testBit_and, Nat.testBit_or, Nat.testBit_xor]
  by_cases hk : k < 32
  · rw [testBit_mask32 hk]
    have hlv : Nat.testBit (linex % 2 ^ 32) k = Nat.testBit linex k := by
      rw [Nat.testBit_mod_two_pow]
      simp [hk]
    rw [hlv]
    cases hl : Nat.testBit linex k
    · simp
    · rw [hl, Bool.and_true] at hand
      rw [hand]
      rfl
  · have hin : Nat.testBit s.inten k = false :=
      Nat.testBit_lt_two_pow (Nat.lt_of_lt_of_le h32
        (Nat.pow_le_pow_right (by norm_num) (Nat.le_of_not_lt hk)))
    have hlv : Nat.testBit (linex % 2 ^ 32) k = false := by
      rw [Nat.testBit_mod_two_pow]
      simp [hk]
    rw [hin, hlv]
    rfl

/-- Witness for the amended C4: line 2 on an EXTI state whose `INTEN` is
all-clear. -/
theorem exti_enable_then_disable_witness :
    sampleEXTI.inten < 2 ^ 32 ∧ sampleEXTI.inten &&& 4 = 0 ∧
    exti_interrupt_disable 4 (exti_interrupt_enable 4 sampleEXTI) = sampleEXTI :=
  ⟨by decide, by decide, exti_enable_then_disable 4 sampleEXTI (by decide) (by decide)⟩

/-- C5: `gpio_pin_lock` performs exactly the mandated access sequence on
`GPIO_LOCK`: store `0x00010000 | pin`, store `pin`, store
`0x00010000 | pin`, load, load — three stores then two loads, in order. -/
theorem gpio_pin_lock_sequence (pin : Nat) (b : LockBus) :
    (gpio_pin_lock pin b).accesses = b.accesses ++
      [LockAccess.store ((0x00010000 ||| pin) % 2 ^ 32),
       LockAccess.store (pin % 2 ^ 32),
       LockAccess.store ((0x00010000 ||| pin) % 2 ^ 32),
       LockAccess.load, LockAccess.load] := by
  simp [gpio_pin_lock, lockStore, lockLoad]

/-- C6: for every port identifier other than `GPIOA`, `GPIOB` and `GPIOC`,
`gpio_deinit` falls through the switch's default arm and performs no
register access at all. -/
theorem gpio_deinit_unrecognized (p : Nat)
    (hA : p ≠ GPIOA) (hB : p ≠ GPIOB) (hC : p ≠ GPIOC) :
    gpio_deinit p = [] := by
  rw [gpio_deinit, if_neg hA, if_neg hB, if_neg hC]

/-- Witness for C6: the unrecognized port identifier `0`. -/
theorem gpio_deinit_unrecognized_witness :
    (0 : Nat) ≠ GPIOA ∧ (0 : Nat) ≠ GPIOB ∧ (0 : Nat) ≠ GPIOC ∧
    gpio_deinit 0 = [] :=
  ⟨by decide, by decide, by decide,
    gpio_deinit_unrecognized 0 (by decide) (by decide) (by decide)⟩

/-- C7: `gpio_mode_set` is idempotent — applying it twice with the same
arguments produces exactly the state produced by applying it once, for
every port state, mode, pull-up/down value and pin selector. -/
theorem gpio_mode_set_idem (s : GPIOPort) (mode pupd pin : Nat) :
    gpio_mode_set (gpio_mode_set s mode pupd pin) mode pupd pin =
      gpio_mode_set s mode pupd pin := by
  refine GPIOPort.ext ?_ rfl rfl ?_ rfl rfl rfl rfl rfl rfl rfl rfl
  · rw [gpio_mode_set_ctl (gpio_mode_set s mode pupd pin), gpio_mode_set_ctl s]
    exact rmwLoop_idem (pinSel pin) 2 mode (List.range 16) s.ctl
  · rw [gpio_mode_set_pud (gpio_mode_set s mode pupd pin), gpio_mode_set_pud s]
    exact rmwLoop_idem (pinSel pin) 2 pupd (List.range 16) s.pud

/-- C8: a zero pin selector makes `gpio_mode_set` a no-op on both
`GPIO_CTL` and `GPIO_PUD` — the loop body never fires and the read-back
values are written back unchanged. -/
theorem gpio_mode_set_zero_pin (s : GPIOPort) (mode pupd : Nat) :
    (gpio_mode_set s mode pupd 0).ctl = s.ctl ∧
    (gpio_mode_set s mode pupd 0).pud = s.pud := by
  have h : ∀ j, pinSel 0 j = false := by
    intro j
    simp [pinSel, Nat.and_zero]
  rw [gpio_mode_set_ctl, gpio_mode_set_pud, rmwLoop_id _ _ _ h, rmwLoop_id _ _ _ h]
  exact ⟨rfl, rfl⟩

/-- C9: `exti_flag_get` and `exti_interrupt_flag_get` compute the same
status, and `exti_flag_clear` and `exti_interrupt_flag_clear` perform the
same state update, for every line mask and every EXTI state. -/
theorem exti_flag_pairs_equal (linex : Nat) (s : EXTI) :
    exti_flag_get linex s = exti_interrupt_flag_get linex s ∧
    exti_flag_clear linex s = exti_interrupt_flag_clear linex s :=
  ⟨rfl, rfl⟩

/-- C10: `gpio_bit_write` writes the pin mask to `GPIO_BOP` (exactly as
`gpio_bit_set`) for every `bit_value` other than `RESET` — not only the
documented `SET` value — and writes it to `GPIO_BC` (exactly as
`gpio_bit_reset`) when `bit_value = RESET`. -/
theorem gpio_bit_write_eq_set_or_reset (s : GPIOPort) (pin bit_value : Nat) :
    gpio_bit_write s pin bit_value =
      if bit_value ≠ RESET then gpio_bit_set s pin else gpio_bit_reset s pin := by
  by_cases h : bit_value = RESET
  · simp [gpio_bit_write, gpio_bit_set, gpio_bit_reset, h]
  · simp [gpio_bit_write, gpio_bit_set, gpio_bit_reset, h, Ne.symm h]
